import Mathlib

/-!
Verification development for the `cpp-advanced-vector` repository: a raw
memory buffer (`RawMemory`) and a dynamic array (`Vector`) built on it.
The repository contains two textual copies of the container:
`src/advanced-vector/{raw_memory.h, vector.h}` and
`src/unnamed/part_000` (+ `part_001`, a combined header).  All operations
except copy assignment and `Erase` are textually identical between the two
copies, so they are embedded once; copy assignment and `Erase` differ and
are embedded twice (`...V1` = `vector.h`, `...V2` = `part_000`).

The embedding is a shallow one:
* a `RawMemory` is a pair of an abstract allocation pointer
  (`Option Nat`, `none` = `nullptr`; the heap itself is not modelled, so
  `Deallocate` frees the block but leaves the pointer member unchanged,
  exactly as in the source) and a capacity;
* a `Vector`'s buffer is a `List (Option α)` of length `capacity`, a slot
  being `some v` when it holds a constructed element with value `v` and
  `none` when it is raw (unconstructed) memory; `size` is the element count;
* `std::uninitialized_copy_n` / `uninitialized_move_n` / `std::copy` /
  `std::move` writing a range of values into the buffer starting at an
  index are modelled by `writeN` (at the value level a completed move
  transfers the value; moved-from slots that stay alive keep their slot
  value, which only matters for slots outside the live region);
* `std::destroy_n` / `destroy_at` set slots back to `none` (`destroyN`);
* throwing element copies are modelled by a predicate `bad` on values: the
  fallible functions (`uninitCopyF`, `replaceF`, `emplaceGrowF`,
  `emplaceBackF`) return `Except`, the error payload being the container
  state observable after the exception propagates.
-/

/-- Abstract model of `RawMemory<T>`: the `buffer_` pointer (`none` =
`nullptr`, `some id` = a non-null pointer to allocation `id`) and
`capacity_`.  Element storage is carried by the `Vector` model instead. -/
structure RawMemory where
  buffer : Option Nat
  capacity : Nat
deriving DecidableEq, Repr

/-- `std::swap` of two objects (also `RawMemory::Swap` / `Vector::Swap`):
each ends with the other's state. -/
def swapPair {α : Type} (a b : α) : α × α := (b, a)

/-- `RawMemory::Allocate(n)`: a non-null pointer to a fresh block when
`n != 0`, `nullptr` otherwise.  The fresh allocation is named by the
caller-supplied identifier `id`. -/
def RawMemory.allocate (n id : Nat) : Option Nat :=
  if n ≠ 0 then some id else none

/-- `RawMemory(size_t capacity)`: allocates immediately. -/
def RawMemory.ofCapacity (n id : Nat) : RawMemory :=
  { buffer := RawMemory.allocate n id, capacity := n }

/-- `RawMemory(RawMemory&& other)`: the freshly constructed object
(`buffer_ = nullptr`, `capacity_ = 0`) swaps with `other`, then
`Deallocate(other.buffer_)` is called (a no-op, since after the swap
`other.buffer_` is the fresh object's null pointer) and `other.capacity_`
is set to `0`.  Returns (constructed object, source afterwards). -/
def RawMemory.moveCtor (other : RawMemory) : RawMemory × RawMemory :=
  let this0 : RawMemory := { buffer := none, capacity := 0 }
  let p := swapPair this0 other
  (p.1, { p.2 with capacity := 0 })

/-- `RawMemory::operator=(RawMemory&& rhs)` on distinct objects: swap, then
`Deallocate(rhs.buffer_)` frees the block that was `this`'s old buffer —
the pointer member of `rhs` keeps its (now dangling) value — and
`rhs.capacity_` is set to `0`.  Returns (assigned object, source
afterwards). -/
def RawMemory.moveAssign (this rhs : RawMemory) : RawMemory × RawMemory :=
  let p := swapPair this rhs
  (p.1, { p.2 with capacity := 0 })

/-- `~RawMemory()` calls `Deallocate(buffer_)` exactly when
`buffer_ != nullptr`. -/
def RawMemory.dtorDeallocates (rm : RawMemory) : Bool :=
  rm.buffer.isSome

/-- Model of `Vector<T>`: the buffer slots (`length data` = capacity of the
owned `RawMemory`; `some v` = a constructed element holding `v`, `none` =
raw memory) and the element count `size_`. -/
structure Vec (α : Type) where
  data : List (Option α)
  size : Nat
deriving DecidableEq, Repr

/-- Capacity of the vector = capacity of its buffer. -/
def Vec.capacity {α : Type} (v : Vec α) : Nat := v.data.length

/-- Write the values `src` into consecutive slots of `dst` starting at
index `j` (the value-level effect of `std::uninitialized_copy_n`,
`std::uninitialized_move_n`, `std::copy`, `std::move` and
`std::move_backward` once completed). -/
def writeN {α : Type} : List (Option α) → Nat → List (Option α) → List (Option α)
  | dst, _, [] => dst
  | dst, j, s :: rest => writeN (dst.set j s) (j + 1) rest

/-- `std::destroy_n(buf + i, n)`: slots `[i, i+n)` become raw memory. -/
def destroyN {α : Type} (l : List (Option α)) (i n : Nat) : List (Option α) :=
  writeN l i (List.replicate n none)

/-- Observable contents of the container: the live slots `[0, size)`. -/
def Vec.elems {α : Type} (v : Vec α) : List (Option α) :=
  v.data.take v.size

/-- The basic container invariant `size_ <= data_.Capacity()`. -/
def Vec.SizeLeCap {α : Type} (v : Vec α) : Prop :=
  v.size ≤ v.data.length

instance {α : Type} (v : Vec α) : Decidable v.SizeLeCap := by
  unfold Vec.SizeLeCap; infer_instance

/-- `Vector()` — default construction: null buffer, capacity 0, size 0. -/
def Vec.nil (α : Type) : Vec α := { data := [], size := 0 }

/-- `Vector(size_t size)`: buffer of capacity `size`,
`std::uninitialized_value_construct_n` makes `size` value-initialized
(default-valued) elements. -/
def Vec.ofSize (α : Type) [Inhabited α] (n : Nat) : Vec α :=
  { data := List.replicate n (some default), size := n }

/-- `Vector(const Vector& other)`: fresh buffer of capacity `other.size_`,
`std::uninitialized_copy_n(other.begin(), size_, begin())`. -/
def Vec.copy {α : Type} (other : Vec α) : Vec α :=
  { data := writeN (List.replicate other.size none) 0 (other.data.take other.size),
    size := other.size }

/-- `Vector(Vector&& other)`: the fresh empty vector swaps with `other`.
Returns (constructed object, source afterwards). -/
def Vec.moveCtor {α : Type} (other : Vec α) : Vec α × Vec α :=
  swapPair (Vec.nil α) other

/-- `Vector::operator=(Vector&& rhs)` on distinct objects: `Swap(rhs)`.
Returns (assigned object, source afterwards). -/
def Vec.moveAssign {α : Type} (this rhs : Vec α) : Vec α × Vec α :=
  swapPair this rhs

/-- `Vector::operator=(const Vector& rhs)` from `vector.h` (lines 105-128),
on distinct objects.  Growth case: copy-construct `rhs_copy` and swap with
it.  Shrink case: assign `rhs.size_` elements, destroy the tail.  Grow-in-
place case (the buggy one): assign `rhs` elements over `[0, size_)`, then
`std::uninitialized_copy_n(rhs.begin(), rhs.size_ - i, begin())` — i.e. it
re-copies `rhs`'s FIRST `rhs.size_ - size_` elements to the START of the
buffer instead of copying `rhs`'s tail into the tail slots. -/
def Vec.copyAssignV1 {α : Type} (a b : Vec α) : Vec α :=
  if b.size > a.data.length then
    Vec.copy b
  else if a.size > b.size then
    { data := destroyN (writeN a.data 0 (b.data.take b.size)) b.size (a.size - b.size),
      size := b.size }
  else
    { data := writeN (writeN a.data 0 (b.data.take a.size)) 0 (b.data.take (b.size - a.size)),
      size := b.size }

/-- `Vector::operator=(const Vector& rhs)` from `part_000` (lines 85-102),
on distinct objects.  Same growth and shrink cases; grow-in-place case:
`std::copy(rhs.begin(), rhs.data_ + size_, begin())` then
`std::uninitialized_copy_n(rhs.data_ + size_, rhs.size_ - size_,
data_ + size_)` — the tail of `rhs` goes into the tail slots. -/
def Vec.copyAssignV2 {α : Type} (a b : Vec α) : Vec α :=
  if b.size > a.data.length then
    Vec.copy b
  else if a.size > b.size then
    { data := destroyN (writeN a.data 0 (b.data.take b.size)) b.size (a.size - b.size),
      size := b.size }
  else
    { data := writeN (writeN a.data 0 (b.data.take a.size)) a.size
        ((b.data.drop a.size).take (b.size - a.size)),
      size := b.size }

/-- `Vector::EmplaceBack` (identical in both copies), with the new element
already constructed to value `x`.  If `size_ < Capacity()`, placement-new
at slot `size_`; otherwise allocate a buffer of capacity
`size_ == 0 ? 1 : size_ * 2`, construct `x` at its slot `size_` first, then
`ReplaceElementsInMemory` transfers the old live elements (and destroys the
originals), and the buffers are swapped.  Returns the new state and the
index of the returned reference `data_[size_ - 1]`. -/
def Vec.emplaceBack {α : Type} (v : Vec α) (x : α) : Vec α × Nat :=
  if v.size < v.data.length then
    ({ data := v.data.set v.size (some x), size := v.size + 1 }, v.size)
  else
    let newCap := if v.size = 0 then 1 else v.size * 2
    let nb := writeN ((List.replicate newCap none).set v.size (some x)) 0
      (v.data.take v.size)
    ({ data := nb, size := v.size + 1 }, v.size)

/-- `Vector::Emplace` (identical in both copies), with the new element's
construction succeeding and producing value `x`; `p` is
`pos - cbegin()`.  Non-growth path: at the end it forwards to
`EmplaceBack`; otherwise it builds `tmp`, move-constructs the last element
into slot `size_`, shifts `[p, size_-1)` one slot right with
`std::move_backward` and move-assigns `tmp` into slot `p`.  Growth path:
fresh buffer, construct `x` at its slot `p`, transfer prefix `[0,p)` and
suffix `[p,size_)` around it, swap buffers.  Returns the new state and the
returned iterator's index. -/
def Vec.emplace {α : Type} (v : Vec α) (p : Nat) (x : α) : Vec α × Nat :=
  if v.size < v.data.length then
    if p = v.size then
      v.emplaceBack x
    else
      let d1 := v.data.set v.size (v.data.getD (v.size - 1) none)
      let d2 := writeN d1 (p + 1) ((v.data.drop p).take (v.size - 1 - p))
      ({ data := d2.set p (some x), size := v.size + 1 }, p)
  else
    let newCap := if v.size = 0 then 1 else v.size * 2
    let nb0 := (List.replicate newCap none).set p (some x)
    let nb1 := writeN nb0 0 (v.data.take p)
    let nb2 := writeN nb1 (p + 1) ((v.data.drop p).take (v.size - p))
    ({ data := nb2, size := v.size + 1 }, p)

/-- `Vector::PopBack`: `std::destroy_at(end() - 1)`, decrement `size_`. -/
def Vec.popBack {α : Type} (v : Vec α) : Vec α :=
  { data := v.data.set (v.size - 1) none, size := v.size - 1 }

/-- `Vector::Erase` from `vector.h` (lines 209-219).  `pos == cend()`:
`PopBack`, return `end()` (index `size_` after the decrement).  Otherwise:
`std::destroy_at(pos)` FIRST, then `std::move(data_ + p + 1, end(),
data_ + p)` move-assigns the tail one slot left (the first assignment
targets the just-destroyed slot), decrement `size_`; the vacated last slot
keeps its moved-from object — it is never destroyed. -/
def Vec.eraseV1 {α : Type} (v : Vec α) (p : Nat) : Vec α × Nat :=
  if p = v.size then
    (v.popBack, v.size - 1)
  else
    let d1 := v.data.set p none
    let d2 := writeN d1 p ((v.data.drop (p + 1)).take (v.size - (p + 1)))
    ({ data := d2, size := v.size - 1 }, p)

/-- `Vector::Erase` from `part_000` (lines 214-223).  `pos == cend()`:
`PopBack`, return `end()`.  Otherwise: `std::move(data_ + p + 1, end(),
data_ + p)` shifts the tail one slot left, then `PopBack` destroys the
vacated last slot. -/
def Vec.eraseV2 {α : Type} (v : Vec α) (p : Nat) : Vec α × Nat :=
  if p = v.size then
    (v.popBack, v.size - 1)
  else
    let d1 := writeN v.data p ((v.data.drop (p + 1)).take (v.size - (p + 1)))
    let d2 := d1.set (v.size - 1) none
    ({ data := d2, size := v.size - 1 }, p)

/-- `Vector::Reserve(new_capacity)`: no-op when `new_capacity <=
Capacity()`; otherwise fresh buffer of exactly `new_capacity`, transfer the
live elements, swap. -/
def Vec.reserve {α : Type} (v : Vec α) (n : Nat) : Vec α :=
  if n ≤ v.data.length then v
  else { data := writeN (List.replicate n none) 0 (v.data.take v.size), size := v.size }

/-- `Vector::Resize(new_size)`: grow appends value-initialized
(default-valued) elements after reserving; shrink destroys the tail; then
`size_ = new_size` in every case. -/
def Vec.resize {α : Type} [Inhabited α] (v : Vec α) (n : Nat) : Vec α :=
  if n > v.size then
    let v1 := v.reserve n
    { data := writeN v1.data v.size (List.replicate (n - v.size) (some default)), size := n }
  else if n < v.size then
    { data := destroyN v.data n (v.size - n), size := n }
  else
    { data := v.data, size := n }

/-- `std::uninitialized_copy_n` with throwing element copies: copy the
slots `src` into `dst` from index `j`; copying a value `t` with
`bad t = true` throws, and the algorithm destroys the copies it already
made before propagating (so on error the caller's buffer is its pre-call
one). -/
def uninitCopyF {α : Type} (bad : α → Bool) :
    List (Option α) → List (Option α) → Nat → Except Unit (List (Option α))
  | [], dst, _ => .ok dst
  | s :: rest, dst, j =>
    if s.any bad then .error ()
    else uninitCopyF bad rest (dst.set j s) (j + 1)

/-- `Vector::ReplaceElementsInMemory(old + i, new + j, n)` in the
copy-relocation case (the move case is chosen only when the element type's
move construction cannot throw, and then coincides at the value level with
`bad = fun x => false`): copy `old` slots `[i, i+n)` to `new` slots
`[j, j+n)`, then `std::destroy_n(old + i, n)`.  On a throwing copy the
partial copies are rolled back and the originals are untouched. -/
def replaceF {α : Type} (bad : α → Bool) (oldBuf : List (Option α)) (i n : Nat)
    (newBuf : List (Option α)) (j : Nat) :
    Except Unit (List (Option α) × List (Option α)) :=
  match uninitCopyF bad ((oldBuf.drop i).take n) newBuf j with
  | .error _ => .error ()
  | .ok nb => .ok (destroyN oldBuf i n, nb)

/-- Growth path of `Vector::Emplace` (the `else` branch, taken when
`size_ == Capacity()`; identical in both copies) with throwing element
copies.  The new element is constructed at the new buffer's slot `p`; the
prefix `[0,p)` is transferred under a handler that destroys the new
element; the suffix `[p,size_)` is transferred into the new buffer from
slot `p+1` under a handler that runs `std::destroy_n(begin(), p + 1)` — on
the OLD buffer, `begin()` being `data_.GetAddress()` since the buffers are
swapped only after both transfers.  On success the buffers are swapped and
`size_` incremented.  The error payload is the container observable after
the exception propagates (the new buffer's storage is freed by
`new_data`'s destructor without running element destructors). -/
def Vec.emplaceGrowF {α : Type} (bad : α → Bool) (v : Vec α) (p : Nat) (x : α) :
    Except (Vec α) (Vec α × Nat) :=
  let newCap := if v.size = 0 then 1 else v.size * 2
  let nb0 := (List.replicate newCap none).set p (some x)
  match replaceF bad v.data 0 p nb0 0 with
  | .error _ => .error v
  | .ok pr =>
    match replaceF bad pr.1 p (v.size - p) pr.2 (p + 1) with
    | .error _ => .error { data := destroyN pr.1 0 (p + 1), size := v.size }
    | .ok pr2 => .ok ({ data := pr2.2, size := v.size + 1 }, p)

/-- `Vector::EmplaceBack` with a possibly-throwing construction of the new
element (`mx = none` models the constructor throwing).  In both branches
the new element is constructed before any existing element is moved,
copied or destroyed, so a throw leaves the container untouched (in the
growth branch only the fresh `new_data` was allocated, and it is freed by
its destructor). -/
def Vec.emplaceBackF {α : Type} (v : Vec α) (mx : Option α) : Except (Vec α) (Vec α × Nat) :=
  if v.size < v.data.length then
    match mx with
    | none => .error v
    | some x =>
      .ok ({ data := v.data.set v.size (some x), size := v.size + 1 }, v.size)
  else
    let newCap := if v.size = 0 then 1 else v.size * 2
    match mx with
    | none => .error v
    | some x =>
      let nb := writeN ((List.replicate newCap none).set v.size (some x)) 0
        (v.data.take v.size)
      .ok ({ data := nb, size := v.size + 1 }, v.size)

example : Vec.emplaceBack (⟨[some 1], 1⟩ : Vec Nat) 2 = (⟨[some 1, some 2], 2⟩, 1) := by
  decide

example : Vec.eraseV1 (⟨[some 10, some 20], 2⟩ : Vec Nat) 0 = (⟨[some 20, some 20], 1⟩, 0) := by
  decide

example : Vec.eraseV2 (⟨[some 10, some 20], 2⟩ : Vec Nat) 0 = (⟨[some 20, none], 1⟩, 0) := by
  decide

example :
    Vec.emplaceGrowF (fun t => t == 20) (⟨[some 10, some 20], 2⟩ : Vec Nat) 1 99 =
      .error ⟨[none, none], 2⟩ := by
  rfl

example :
    Vec.emplaceGrowF (fun t => t == 10) (⟨[some 10, some 20], 2⟩ : Vec Nat) 1 99 =
      .error ⟨[some 10, some 20], 2⟩ := by
  rfl

example :
    Vec.emplaceGrowF (fun _ => false) (⟨[some 10, some 20], 2⟩ : Vec Nat) 1 99 =
      .ok (⟨[some 10, some 99, some 20, none], 3⟩, 1) := by
  rfl

example :
    Vec.copyAssignV1 (⟨[some 10, none], 1⟩ : Vec Nat) ⟨[some 1, some 2], 2⟩ =
      ⟨[some 1, none], 2⟩ := by
  decide

example :
    Vec.copyAssignV2 (⟨[some 10, none], 1⟩ : Vec Nat) ⟨[some 1, some 2], 2⟩ =
      ⟨[some 1, some 2], 2⟩ := by
  decide

example : Vec.emplace (⟨[some 1, some 2, none], 2⟩ : Vec Nat) 1 9 =
    (⟨[some 1, some 9, some 2], 3⟩, 1) := by
  decide

example : Vec.resize (⟨[some 1, none], 1⟩ : Vec Nat) 4 =
    (⟨[some 1, some 0, some 0, some 0], 4⟩ : Vec Nat) := by
  decide

/-! ### Basic lemmas about the buffer primitives -/

theorem writeN_length {α : Type} (src : List (Option α)) :
    ∀ (dst : List (Option α)) (j : Nat), (writeN dst j src).length = dst.length := by
  induction src with
  | nil => intro dst j; rfl
  | cons s rest ih => intro dst j; simp [writeN, ih]

theorem writeN_eq {α : Type} (src : List (Option α)) :
    ∀ (dst : List (Option α)) (j : Nat), j + src.length ≤ dst.length →
      writeN dst j src = dst.take j ++ src ++ dst.drop (j + src.length) := by
  induction src with
  | nil =>
    intro dst j h
    simp [writeN]
  | cons s rest ih =>
    intro dst j h
    simp only [List.length_cons] at h
    have hj : j < dst.length := by omega
    rw [writeN, ih _ (j + 1) (by simp; omega),
      List.set_eq_take_cons_drop s hj]
    rw [List.take_append_eq_append_take, List.drop_append_eq_append_drop]
    simp [List.length_take, List.take_take, Nat.min_def, hj.le, List.drop_drop]
    have h1 : List.drop (j + 1 + rest.length) (List.take j dst) = [] := by
      apply List.drop_eq_nil_of_le
      simp [List.length_take]
      omega
    have h2 : j + 1 + rest.length - j = rest.length + 1 := by omega
    rw [h1, h2, List.nil_append, List.drop_succ_cons, List.drop_drop]
    congr 1
    omega

theorem destroyN_length {α : Type} (l : List (Option α)) (i n : Nat) :
    (destroyN l i n).length = l.length := by
  simp [destroyN, writeN_length]

theorem destroyN_eq {α : Type} (l : List (Option α)) (i n : Nat) (h : i + n ≤ l.length) :
    destroyN l i n = l.take i ++ List.replicate n none ++ l.drop (i + n) := by
  unfold destroyN
  rw [writeN_eq (List.replicate n none) l i (by simp; omega)]
  simp

theorem take_set_of_le {α : Type} (l : List α) (i k : Nat) (a : α) (h : k ≤ i) :
    (l.set i a).take k = l.take k := by
  by_cases hi : i < l.length
  · rw [List.set_eq_take_cons_drop a hi, List.take_append_eq_append_take]
    have hlen : (l.take i).length = i := by simp [List.length_take]; omega
    rw [hlen]
    have h1 : k - i = 0 := by omega
    simp [h1, List.take_take, Nat.min_def, h]
  · rw [List.set_eq_of_length_le (by omega)]

/-- Shape of the fresh buffer built by the growth paths: the new element at
slot `N` (for `EmplaceBack`) after the old live elements `L` have been
transferred in front of it. -/
theorem growBuffer_eq {α : Type} (L : List (Option α)) (N newCap : Nat) (x : α)
    (hcap : N < newCap) (hlen : L.length = N) :
    writeN ((List.replicate newCap (none : Option α)).set N (some x)) 0 L =
      L ++ some x :: List.replicate (newCap - N - 1) none := by
  rw [List.set_eq_take_cons_drop _ (by simp; omega)]
  rw [List.take_replicate, List.drop_replicate, Nat.min_eq_left hcap.le]
  rw [writeN_eq L _ 0 (by simp; omega)]
  simp only [List.take_zero, List.nil_append, Nat.zero_add, hlen]
  rw [List.drop_append_eq_append_drop]
  simp
  omega

theorem emplaceBack_spec {α : Type} (v : Vec α) (x : α) (h : v.SizeLeCap) :
    (v.emplaceBack x).1.elems = v.elems ++ [some x] ∧
    (v.emplaceBack x).1.size = v.size + 1 ∧
    (v.emplaceBack x).2 = v.size ∧
    (v.emplaceBack x).1.SizeLeCap ∧
    (v.emplaceBack x).1.data.getD v.size none = some x := by
  by_cases hlt : v.size < v.data.length
  · have hd : (v.emplaceBack x).1.data = v.data.set v.size (some x) := by
      unfold Vec.emplaceBack; rw [if_pos hlt]
    have hs : (v.emplaceBack x).1.size = v.size + 1 := by
      unfold Vec.emplaceBack; rw [if_pos hlt]
    have hr : (v.emplaceBack x).2 = v.size := by
      unfold Vec.emplaceBack; rw [if_pos hlt]
    refine ⟨?_, hs, hr, ?_, ?_⟩
    · unfold Vec.elems
      rw [hd, hs, List.set_eq_take_cons_drop _ hlt, List.take_append_eq_append_take]
      have hlen : (v.data.take v.size).length = v.size := by
        simp [List.length_take]; omega
      rw [hlen]
      have h1 : v.size + 1 - v.size = 1 := by omega
      rw [h1]
      simp [List.take_take]
    · unfold Vec.SizeLeCap
      rw [hd, hs]
      simp
      omega
    · rw [hd]
      simp [List.getD_eq_getElem?_getD, List.getElem?_set_self hlt]
  · have hN : v.data.length = v.size := by
      have := h; unfold Vec.SizeLeCap at this; omega
    have hcap : v.size < if v.size = 0 then 1 else v.size * 2 := by
      split_ifs with hz <;> omega
    have htake : v.data.take v.size = v.data := List.take_of_length_le (by omega)
    have hd : (v.emplaceBack x).1.data =
        v.data ++ some x :: List.replicate ((if v.size = 0 then 1 else v.size * 2) - v.size - 1) none := by
      unfold Vec.emplaceBack
      rw [if_neg hlt, htake]
      dsimp only
      rw [growBuffer_eq v.data v.size _ x hcap hN]
    have hs : (v.emplaceBack x).1.size = v.size + 1 := by
      unfold Vec.emplaceBack; rw [if_neg hlt]
    have hr : (v.emplaceBack x).2 = v.size := by
      unfold Vec.emplaceBack; rw [if_neg hlt]
    refine ⟨?_, hs, hr, ?_, ?_⟩
    · unfold Vec.elems
      rw [hd, hs, List.take_append_eq_append_take, List.take_of_length_le (by omega), hN]
      have h1 : v.size + 1 - v.size = 1 := by omega
      rw [h1, htake]
      simp
    · unfold Vec.SizeLeCap
      rw [hd, hs]
      simp
      generalize (if v.size = 0 then 1 else v.size * 2) = K at hcap ⊢
      omega
    · rw [hd]
      rw [List.getD_eq_getElem?_getD, List.getElem?_append_right hN.le, hN]
      simp

theorem emplace_spec {α : Type} (v : Vec α) (p : Nat) (x : α) (h : v.SizeLeCap)
    (hp : p ≤ v.size) :
    (v.emplace p x).1.elems = v.elems.take p ++ some x :: v.elems.drop p ∧
    (v.emplace p x).1.size = v.size + 1 ∧
    (v.emplace p x).2 = p ∧
    (v.emplace p x).1.SizeLeCap ∧
    (v.size < v.data.length → (v.emplace p x).1.data.length = v.data.length) := by
  have hSLC := h
  unfold Vec.SizeLeCap at hSLC
  by_cases hlt : v.size < v.data.length
  · by_cases hpe : p = v.size
    · -- forwards to EmplaceBack
      have he : v.emplace p x = v.emplaceBack x := by
        unfold Vec.emplace; rw [if_pos hlt, if_pos hpe]
      obtain ⟨e1, e2, e3, e4, e5⟩ := emplaceBack_spec v x h
      rw [he, hpe]
      refine ⟨?_, e2, e3, e4, ?_⟩
      · rw [e1]
        unfold Vec.elems
        congr 1
        · rw [List.take_take]
          congr 1
          omega
        · have hdrop : (v.data.take v.size).drop v.size = [] := by
            apply List.drop_eq_nil_of_le
            simp [List.length_take]
          rw [hdrop]
      · intro hlen
        unfold Vec.emplaceBack
        rw [if_pos hlt]
        simp
    · -- shift-right path: p < size
      have hps : p < v.size := by omega
      have hd : (v.emplace p x).1.data =
          ((v.data.set v.size (v.data.getD (v.size - 1) none)
            |> (fun d1 => writeN d1 (p + 1) ((v.data.drop p).take (v.size - 1 - p)))).set
            p (some x)) := by
        unfold Vec.emplace; rw [if_pos hlt, if_neg hpe]
      have hs : (v.emplace p x).1.size = v.size + 1 := by
        unfold Vec.emplace; rw [if_pos hlt, if_neg hpe]
      have hr : (v.emplace p x).2 = p := by
        unfold Vec.emplace; rw [if_pos hlt, if_neg hpe]
      simp only at hd
      -- normal form of the intermediate buffers
      have hd1 : v.data.set v.size (v.data.getD (v.size - 1) none) =
          v.data.take v.size ++ v.data.getD (v.size - 1) none :: v.data.drop (v.size + 1) :=
        List.set_eq_take_cons_drop _ hlt
      have hsrclen : ((v.data.drop p).take (v.size - 1 - p)).length = v.size - 1 - p := by
        simp [List.length_take, List.length_drop]; omega
      have hd2 : writeN (v.data.set v.size (v.data.getD (v.size - 1) none)) (p + 1)
            ((v.data.drop p).take (v.size - 1 - p)) =
          v.data.take (p + 1) ++ (v.data.drop p).take (v.size - 1 - p) ++
            (v.data.getD (v.size - 1) none :: v.data.drop (v.size + 1)) := by
        rw [writeN_eq _ _ _ (by simp [hsrclen]; omega), hd1]
        congr 1
        · congr 1
          rw [List.take_append_eq_append_take]
          have : p + 1 - (v.data.take v.size).length = 0 := by
            simp [List.length_take]; omega
          rw [this]
          simp [List.take_take]
          omega
        · rw [List.drop_append_eq_append_drop, hsrclen]
          have h1 : (v.data.take v.size).length = v.size := by
            simp [List.length_take]; omega
          have h2 : List.drop (p + 1 + (v.size - 1 - p)) (v.data.take v.size) = [] := by
            apply List.drop_eq_nil_of_le
            simp [List.length_take]; omega
          rw [h1, h2]
          have h3 : p + 1 + (v.size - 1 - p) - v.size = 0 := by omega
          rw [h3]
          simp
      refine ⟨?_, hs, hr, ?_, ?_⟩
      · unfold Vec.elems
        rw [hd, hs, hd2]
        have hlen2 : (v.data.take (p + 1) ++ (v.data.drop p).take (v.size - 1 - p) ++
            (v.data.getD (v.size - 1) none :: v.data.drop (v.size + 1))).length =
            v.data.length := by
          simp [List.length_take, List.length_drop]
          omega
        rw [List.set_eq_take_cons_drop (some x) (by rw [hlen2]; omega)]
        -- take p of the first block
        have ht1 : (v.data.take (p + 1) ++ (v.data.drop p).take (v.size - 1 - p) ++
            (v.data.getD (v.size - 1) none :: v.data.drop (v.size + 1))).take p =
            v.data.take p := by
          rw [List.append_assoc, List.take_append_eq_append_take]
          have : p - (v.data.take (p + 1)).length = 0 := by
            simp [List.length_take]; omega
          rw [this]
          simp [List.take_take]
        have ht2 : (v.data.take (p + 1) ++ (v.data.drop p).take (v.size - 1 - p) ++
            (v.data.getD (v.size - 1) none :: v.data.drop (v.size + 1))).drop (p + 1) =
            (v.data.drop p).take (v.size - 1 - p) ++
              (v.data.getD (v.size - 1) none :: v.data.drop (v.size + 1)) := by
          rw [List.append_assoc]
          apply List.drop_left'
          simp [List.length_take]
          omega
        rw [ht1, ht2]
        -- now take (size+1) of: take p ++ some x :: (mid ++ getD :: tail)
        rw [List.take_append_eq_append_take]
        have h1 : (v.data.take p).length = p := by simp [List.length_take]; omega
        rw [h1, List.take_take]
        have h2 : min (v.size + 1) p = p := by omega
        rw [h2]
        have h3 : v.size + 1 - p = (v.size - p) + 1 := by omega
        rw [h3]
        simp only [List.take_succ_cons]
        congr 1
        · rw [List.take_take]
          congr 1
          omega
        · -- take (size - p) of (mid ++ getD :: tail) = elems.drop p
          congr 1
          rw [List.take_append_eq_append_take, hsrclen]
          have h4 : v.size - p - (v.size - 1 - p) = 1 := by omega
          rw [h4, List.take_take]
          have hmin2 : min (v.size - p) (v.size - 1 - p) = v.size - 1 - p := by omega
          rw [hmin2]
          have h7 : (v.data.drop p)[v.size - 1 - p]? = some (v.data.getD (v.size - 1) none) := by
            rw [List.getElem?_drop]
            have h8 : p + (v.size - 1 - p) = v.size - 1 := by omega
            rw [h8]
            have h9 : v.size - 1 < v.data.length := by omega
            rw [List.getElem?_eq_getElem h9]
            rw [List.getD_eq_getElem?_getD, List.getElem?_eq_getElem h9]
            rfl
          have h5 : (v.data.drop p).take (v.size - 1 - p) ++
              (v.data.getD (v.size - 1) none :: v.data.drop (v.size + 1)).take 1 =
              (v.data.drop p).take (v.size - p) := by
            have h6 : v.size - p = (v.size - 1 - p) + 1 := by omega
            rw [h6]
            conv_rhs => rw [List.take_succ]
            congr 1
            rw [h7]
            rfl
          rw [h5, List.drop_take]
      · unfold Vec.SizeLeCap
        rw [hd, hs, List.length_set, writeN_length]
        simp
        omega
      · intro _
        rw [hd, List.length_set, writeN_length]
        simp
  · -- growth path
    have hN : v.data.length = v.size := by omega
    have hz1 : p < if v.size = 0 then 1 else v.size * 2 := by
      split_ifs with hz <;> omega
    have hd : (v.emplace p x).1.data =
        writeN (writeN ((List.replicate (if v.size = 0 then 1 else v.size * 2) none).set p
            (some x)) 0 (v.data.take p)) (p + 1) ((v.data.drop p).take (v.size - p)) := by
      unfold Vec.emplace
      rw [if_neg hlt]
    have hs : (v.emplace p x).1.size = v.size + 1 := by
      unfold Vec.emplace; rw [if_neg hlt]
    have hr : (v.emplace p x).2 = p := by
      unfold Vec.emplace; rw [if_neg hlt]
    -- shapes
    have hb0 : (List.replicate (if v.size = 0 then 1 else v.size * 2) (none : Option α)).set p
        (some x) = List.replicate p none ++ some x ::
          List.replicate ((if v.size = 0 then 1 else v.size * 2) - p - 1) none := by
      rw [List.set_eq_take_cons_drop _ (by simp; omega)]
      rw [List.take_replicate, List.drop_replicate, Nat.min_eq_left hz1.le]
      congr 2
    have htp : (v.data.take p).length = p := by simp [List.length_take]; omega
    have hb1 : writeN ((List.replicate (if v.size = 0 then 1 else v.size * 2) (none : Option α)).set p
          (some x)) 0 (v.data.take p) =
        v.data.take p ++ some x ::
          List.replicate ((if v.size = 0 then 1 else v.size * 2) - p - 1) none := by
      rw [writeN_eq _ _ 0 (by simp [List.length_set]; omega), hb0]
      simp only [List.take_zero, List.nil_append, Nat.zero_add, htp]
      rw [List.drop_append_eq_append_drop]
      have h1 : List.drop p (List.replicate p (none : Option α)) = [] := by simp
      have h2 : p - (List.replicate p (none : Option α)).length = 0 := by simp
      rw [h1, h2]
      simp
    have hsrc2 : ((v.data.drop p).take (v.size - p)).length = v.size - p := by
      simp [List.length_take, List.length_drop]; omega
    have hK : v.size + 1 ≤ if v.size = 0 then 1 else v.size * 2 := by
      split_ifs with hz <;> omega
    have hb2 : (v.emplace p x).1.data =
        v.data.take p ++ some x :: ((v.data.drop p).take (v.size - p) ++
          List.replicate ((if v.size = 0 then 1 else v.size * 2) - v.size - 1) none) := by
      rw [hd, hb1]
      rw [writeN_eq _ _ _ (by
        simp [hsrc2, List.length_replicate, List.length_take]
        generalize (if v.size = 0 then 1 else v.size * 2) = K at hz1 hK ⊢
        omega)]
      have ht : (v.data.take p ++ some x ::
          List.replicate ((if v.size = 0 then 1 else v.size * 2) - p - 1) none).take (p + 1) =
          v.data.take p ++ [some x] := by
        rw [List.take_append_eq_append_take, htp]
        have h1 : p + 1 - p = 1 := by omega
        rw [h1, List.take_take]
        have h2 : min (p + 1) p = p := by omega
        rw [h2]
        rfl
      have hdr : (v.data.take p ++ some x ::
          List.replicate ((if v.size = 0 then 1 else v.size * 2) - p - 1) none).drop
            (p + 1 + (v.size - p)) =
          List.replicate ((if v.size = 0 then 1 else v.size * 2) - v.size - 1) none := by
        rw [List.drop_append_eq_append_drop, htp]
        have h1 : List.drop (p + 1 + (v.size - p)) (v.data.take p) = [] := by
          apply List.drop_eq_nil_of_le
          rw [htp]; omega
        have h2 : p + 1 + (v.size - p) - p = (v.size - p) + 1 := by omega
        rw [h1, h2]
        simp only [List.nil_append, List.drop_succ_cons, List.drop_replicate]
        congr 1
        generalize (if v.size = 0 then 1 else v.size * 2) = K at hz1 hK ⊢
        omega
      rw [ht, hsrc2, hdr, List.append_assoc]
      simp
    refine ⟨?_, hs, hr, ?_, ?_⟩
    · unfold Vec.elems
      rw [hb2, hs]
      rw [List.take_append_eq_append_take, htp]
      have h1 : v.size + 1 - p = (v.size - p) + 1 := by omega
      rw [List.take_take]
      have h2 : min (v.size + 1) p = p := by omega
      rw [h2, h1, List.take_succ_cons]
      congr 1
      · rw [List.take_take]
        congr 1
        omega
      · congr 1
        rw [List.take_append_eq_append_take, hsrc2]
        have h3 : v.size - p - (v.size - p) = 0 := by omega
        rw [h3, List.take_take]
        have h4 : min (v.size - p) (v.size - p) = v.size - p := by omega
        rw [h4]
        simp only [List.take_zero, List.append_nil]
        rw [List.drop_take]
    · unfold Vec.SizeLeCap
      rw [hb2, hs]
      generalize hKK : (if v.size = 0 then 1 else v.size * 2) = K at hz1 hK ⊢
      simp only [List.length_append, List.length_cons, List.length_take, List.length_drop,
        List.length_replicate]
      omega
    · intro hcon
      omega

/-- Shared value-level computation of the shifted buffer in both `Erase`
variants: the tail `[p+1, size)` written one slot to the left over a buffer
that agrees with `v.data` outside slot `sp`. -/
theorem erase_shift_take {α : Type} (v : Vec α) (p : Nat) (h : v.SizeLeCap)
    (hps : p < v.size) (d0 : List (Option α)) (hlen : d0.length = v.data.length)
    (htk : d0.take p = v.data.take p) :
    (writeN d0 p ((v.data.drop (p + 1)).take (v.size - (p + 1)))).take (v.size - 1) =
      v.data.take p ++ (v.data.drop (p + 1)).take (v.size - (p + 1)) := by
  have hSLC := h
  unfold Vec.SizeLeCap at hSLC
  have hsl : ((v.data.drop (p + 1)).take (v.size - (p + 1))).length = v.size - (p + 1) := by
    simp [List.length_take, List.length_drop]; omega
  rw [writeN_eq _ _ _ (by rw [hsl, hlen]; omega)]
  rw [List.take_append_eq_append_take]
  have hab : (d0.take p ++ (v.data.drop (p + 1)).take (v.size - (p + 1))).length =
      v.size - 1 := by
    simp [List.length_append, List.length_take, List.length_drop]; omega
  rw [hab]
  have h0 : v.size - 1 - (v.size - 1) = 0 := by omega
  rw [h0]
  simp only [List.take_zero, List.append_nil]
  rw [List.take_append_eq_append_take]
  have h1 : (d0.take p).length = p := by simp [List.length_take]; omega
  rw [h1, List.take_take]
  have h3 : min (v.size - 1) p = p := by omega
  rw [h3, htk]
  congr 1
  apply List.take_of_length_le
  rw [hsl]
  omega

theorem eraseV1_spec {α : Type} (v : Vec α) (p : Nat) (h : v.SizeLeCap)
    (hps : p < v.size) :
    (v.eraseV1 p).1.elems = v.elems.take p ++ v.elems.drop (p + 1) ∧
    (v.eraseV1 p).1.size = v.size - 1 ∧
    (v.eraseV1 p).2 = p ∧
    (v.eraseV1 p).1.data.length = v.data.length := by
  have hSLC := h
  unfold Vec.SizeLeCap at hSLC
  have hpe : ¬p = v.size := by omega
  have hd : (v.eraseV1 p).1.data =
      writeN (v.data.set p none) p ((v.data.drop (p + 1)).take (v.size - (p + 1))) := by
    unfold Vec.eraseV1; rw [if_neg hpe]
  have hs : (v.eraseV1 p).1.size = v.size - 1 := by
    unfold Vec.eraseV1; rw [if_neg hpe]
  have hr : (v.eraseV1 p).2 = p := by
    unfold Vec.eraseV1; rw [if_neg hpe]
  refine ⟨?_, hs, hr, ?_⟩
  · unfold Vec.elems
    rw [hd, hs]
    rw [erase_shift_take v p h hps _ (by simp) (take_set_of_le _ _ _ _ (le_refl p))]
    congr 1
    · rw [List.take_take]
      congr 1
      omega
    · rw [List.drop_take]
  · rw [hd, writeN_length]
    simp
theorem eraseV2_spec {α : Type} (v : Vec α) (p : Nat) (h : v.SizeLeCap)
    (hps : p < v.size) :
    (v.eraseV2 p).1.elems = v.elems.take p ++ v.elems.drop (p + 1) ∧
    (v.eraseV2 p).1.size = v.size - 1 ∧
    (v.eraseV2 p).2 = p ∧
    (v.eraseV2 p).1.data.length = v.data.length ∧
    (v.eraseV2 p).1.data.getD (v.size - 1) none = none := by
  have hSLC := h
  unfold Vec.SizeLeCap at hSLC
  have hpe : ¬p = v.size := by omega
  have hd : (v.eraseV2 p).1.data =
      (writeN v.data p ((v.data.drop (p + 1)).take (v.size - (p + 1)))).set (v.size - 1) none := by
    unfold Vec.eraseV2; rw [if_neg hpe]
  have hs : (v.eraseV2 p).1.size = v.size - 1 := by
    unfold Vec.eraseV2; rw [if_neg hpe]
  have hr : (v.eraseV2 p).2 = p := by
    unfold Vec.eraseV2; rw [if_neg hpe]
  refine ⟨?_, hs, hr, ?_, ?_⟩
  · unfold Vec.elems
    rw [hd, hs, take_set_of_le _ _ _ _ (le_refl (v.size - 1))]
    rw [erase_shift_take v p h hps v.data rfl rfl]
    congr 1
    · rw [List.take_take]
      congr 1
      omega
    · rw [List.drop_take]
  · rw [hd, List.length_set, writeN_length]
  · rw [hd]
    have hin : v.size - 1 < (writeN v.data p ((v.data.drop (p + 1)).take (v.size - (p + 1)))).length := by
      rw [writeN_length]
      omega
    rw [List.getD_eq_getElem?_getD, List.getElem?_set_self hin]
    rfl

theorem reserve_spec {α : Type} (v : Vec α) (n : Nat) (h : v.SizeLeCap) :
    (v.reserve n).size = v.size ∧
    (v.reserve n).elems = v.elems ∧
    (n ≤ v.data.length → v.reserve n = v) ∧
    (v.data.length < n → (v.reserve n).data.length = n) ∧
    n ≤ (v.reserve n).data.length ∧
    v.size ≤ (v.reserve n).data.length := by
  have hSLC := h
  unfold Vec.SizeLeCap at hSLC
  by_cases hle : n ≤ v.data.length
  · have hv : v.reserve n = v := by unfold Vec.reserve; rw [if_pos hle]
    rw [hv]
    exact ⟨rfl, rfl, fun _ => rfl, fun hc => absurd hc (by omega), by omega, by omega⟩
  · have htk : (v.data.take v.size).length = v.size := by
      simp [List.length_take]; omega
    have hd : (v.reserve n).data =
        v.data.take v.size ++ List.replicate (n - v.size) none := by
      unfold Vec.reserve
      rw [if_neg hle]
      rw [writeN_eq _ _ 0 (by rw [htk]; simp; omega)]
      simp only [List.take_zero, List.nil_append, Nat.zero_add, htk, List.drop_replicate]
    have hs : (v.reserve n).size = v.size := by
      unfold Vec.reserve; rw [if_neg hle]
    have hlen : (v.reserve n).data.length = n := by
      rw [hd]
      simp [List.length_append, List.length_replicate, htk]
      omega
    refine ⟨hs, ?_, fun hc => absurd hc hle, fun _ => hlen, by omega, by omega⟩
    unfold Vec.elems
    rw [hd, hs, List.take_append_eq_append_take, htk]
    have h0 : v.size - v.size = 0 := by omega
    rw [h0, List.take_take]
    have h1 : min v.size v.size = v.size := by omega
    rw [h1]
    simp

theorem resize_spec {α : Type} [Inhabited α] (v : Vec α) (n : Nat) (h : v.SizeLeCap) :
    (v.resize n).size = n ∧
    (n > v.size → (v.resize n).elems = v.elems ++ List.replicate (n - v.size) (some default)) ∧
    (n < v.size → (v.resize n).elems = v.elems.take n) ∧
    (n = v.size → v.resize n = v) ∧
    (v.resize n).SizeLeCap := by
  have hSLC := h
  unfold Vec.SizeLeCap at hSLC
  rcases Nat.lt_trichotomy v.size n with hgt | heq | hlt
  · -- n > size: reserve then value-initialize the new tail
    obtain ⟨r1, r2, _, _, r5, r6⟩ := reserve_spec v n h
    have htk : ((v.reserve n).data.take v.size).length = v.size := by
      simp [List.length_take]; omega
    have hd : (v.resize n).data =
        (v.reserve n).data.take v.size ++ List.replicate (n - v.size) (some default) ++
          (v.reserve n).data.drop n := by
      unfold Vec.resize
      rw [if_pos hgt]
      dsimp only
      rw [writeN_eq _ _ _ (by simp [List.length_replicate]; omega)]
      simp only [List.length_replicate]
      congr 2
      omega
    have hs : (v.resize n).size = n := by
      unfold Vec.resize; rw [if_pos hgt]
    have h2 : (v.reserve n).data.take v.size = v.data.take v.size := by
      have hr2 := r2
      unfold Vec.elems at hr2
      rw [r1] at hr2
      exact hr2
    refine ⟨hs, fun _ => ?_, fun hc => absurd hc (by omega), fun hc => absurd hc (by omega), ?_⟩
    · unfold Vec.elems
      rw [hd, hs, List.take_append_eq_append_take]
      have hab : ((v.reserve n).data.take v.size ++
          List.replicate (n - v.size) (some (default : α))).length = n := by
        simp [List.length_append, List.length_replicate, htk]
        omega
      rw [hab]
      have h0 : n - n = 0 := by omega
      rw [h0]
      simp only [List.take_zero, List.append_nil]
      rw [List.take_append_eq_append_take, htk, List.take_take]
      have h4 : min n v.size = v.size := by omega
      rw [h4, List.take_replicate]
      have h3 : min (n - v.size) (n - v.size) = n - v.size := by omega
      rw [h3, h2]
    · unfold Vec.SizeLeCap
      rw [hd, hs]
      simp [List.length_append, List.length_replicate, htk]
      omega
  · -- n = size: no branch fires, state unchanged
    have hv : v.resize n = v := by
      unfold Vec.resize
      rw [if_neg (by omega), if_neg (by omega)]
      rw [← heq]
    rw [hv]
    exact ⟨by omega, fun hc => absurd hc (by omega), fun hc => absurd hc (by omega),
      fun _ => rfl, h⟩
  · -- n < size: destroy the tail
    have hd : (v.resize n).data =
        v.data.take n ++ List.replicate (v.size - n) none ++ v.data.drop (n + (v.size - n)) := by
      unfold Vec.resize
      rw [if_neg (by omega), if_pos hlt]
      exact destroyN_eq v.data n (v.size - n) (by omega)
    have hs : (v.resize n).size = n := by
      unfold Vec.resize; rw [if_neg (by omega), if_pos hlt]
    refine ⟨hs, fun hc => absurd hc (by omega), fun _ => ?_, fun hc => absurd hc (by omega), ?_⟩
    · unfold Vec.elems
      rw [hd, hs, List.take_append_eq_append_take]
      have hab : (v.data.take n ++ List.replicate (v.size - n) (none : Option α)).length =
          v.size := by
        simp [List.length_append, List.length_take, List.length_replicate]
        omega
      rw [hab]
      have h0 : n - v.size = 0 := by omega
      rw [h0]
      simp only [List.take_zero, List.append_nil]
      rw [List.take_append_eq_append_take]
      have h1 : (v.data.take n).length = n := by simp [List.length_take]; omega
      rw [h1]
      have h2 : n - n = 0 := by omega
      rw [h2]
      simp only [List.take_zero, List.append_nil, List.take_take]
      congr 1
      omega
    · unfold Vec.SizeLeCap
      rw [hd, hs]
      simp [List.length_append, List.length_take, List.length_replicate, List.length_drop]
      omega

@[simp] theorem writeN_nil {α : Type} (dst : List (Option α)) (j : Nat) :
    writeN dst j [] = dst := rfl

theorem copy_spec {α : Type} (b : Vec α) (hb : b.SizeLeCap) :
    (Vec.copy b).size = b.size ∧
    (Vec.copy b).data.length = b.size ∧
    (Vec.copy b).elems = b.elems := by
  have hSLC := hb
  unfold Vec.SizeLeCap at hSLC
  have htk : (b.data.take b.size).length = b.size := by simp [List.length_take]; omega
  have hd : (Vec.copy b).data = b.data.take b.size := by
    unfold Vec.copy
    rw [writeN_eq _ _ 0 (by rw [htk]; simp)]
    simp only [List.take_zero, List.nil_append, Nat.zero_add, htk, List.drop_replicate]
    simp
  refine ⟨rfl, by rw [hd, htk], ?_⟩
  unfold Vec.elems
  rw [hd]
  show (b.data.take b.size).take b.size = _
  rw [List.take_take]
  congr 1
  omega

theorem copyAssignV1_SizeLeCap {α : Type} (a b : Vec α) (hb : b.SizeLeCap) :
    (Vec.copyAssignV1 a b).SizeLeCap := by
  have hSLC := hb
  unfold Vec.SizeLeCap at hSLC
  unfold Vec.copyAssignV1
  split_ifs with h1 h2
  · obtain ⟨c1, c2, _⟩ := copy_spec b hb
    unfold Vec.SizeLeCap
    omega
  · unfold Vec.SizeLeCap
    simp only [destroyN_length, writeN_length]
    omega
  · unfold Vec.SizeLeCap
    simp only [writeN_length]
    omega

theorem copyAssignV2_SizeLeCap {α : Type} (a b : Vec α) (hb : b.SizeLeCap) :
    (Vec.copyAssignV2 a b).SizeLeCap := by
  have hSLC := hb
  unfold Vec.SizeLeCap at hSLC
  unfold Vec.copyAssignV2
  split_ifs with h1 h2
  · obtain ⟨c1, c2, _⟩ := copy_spec b hb
    unfold Vec.SizeLeCap
    omega
  · unfold Vec.SizeLeCap
    simp only [destroyN_length, writeN_length]
    omega
  · unfold Vec.SizeLeCap
    simp only [writeN_length]
    omega

/-- Outside the buggy case (`0 < a.size < b.size ≤ a.capacity`) the two copy
assignments coincide. -/
theorem copyAssign_agree {α : Type} (a b : Vec α)
    (hcase : b.size > a.data.length ∨ b.size ≤ a.size ∨ a.size = 0) :
    Vec.copyAssignV1 a b = Vec.copyAssignV2 a b := by
  unfold Vec.copyAssignV1 Vec.copyAssignV2
  split_ifs with h1 h2
  · rfl
  · rfl
  · rcases hcase with hc | hc | hc
    · omega
    · have hbs : b.size - a.size = 0 := by omega
      rw [hbs]
      simp
    · rw [hc]
      simp

theorem popBack_SizeLeCap {α : Type} (v : Vec α) (hv : v.SizeLeCap) :
    v.popBack.SizeLeCap := by
  unfold Vec.popBack Vec.SizeLeCap at *
  simp
  omega

theorem eraseV1_SizeLeCap {α : Type} (v : Vec α) (p : Nat) (hv : v.SizeLeCap) :
    (v.eraseV1 p).1.SizeLeCap := by
  unfold Vec.eraseV1 Vec.popBack Vec.SizeLeCap at *
  split_ifs <;> simp [writeN_length, List.length_set] <;> omega

theorem eraseV2_SizeLeCap {α : Type} (v : Vec α) (p : Nat) (hv : v.SizeLeCap) :
    (v.eraseV2 p).1.SizeLeCap := by
  unfold Vec.eraseV2 Vec.popBack Vec.SizeLeCap at *
  split_ifs <;> simp [writeN_length, List.length_set] <;> omega

theorem emplaceBack_SizeLeCap {α : Type} (v : Vec α) (x : α) :
    (v.emplaceBack x).1.SizeLeCap := by
  unfold Vec.emplaceBack Vec.SizeLeCap
  by_cases hlt : v.size < v.data.length
  · rw [if_pos hlt]
    simp
    omega
  · rw [if_neg hlt]
    dsimp only
    simp only [writeN_length, List.length_set, List.length_replicate]
    split_ifs with hz <;> omega

theorem emplace_SizeLeCap {α : Type} (v : Vec α) (p : Nat) (x : α) :
    (v.emplace p x).1.SizeLeCap := by
  unfold Vec.emplace
  by_cases hlt : v.size < v.data.length
  · rw [if_pos hlt]
    by_cases hpe : p = v.size
    · rw [if_pos hpe]
      exact emplaceBack_SizeLeCap v x
    · rw [if_neg hpe]
      unfold Vec.SizeLeCap
      dsimp only
      simp only [List.length_set, writeN_length]
      omega
  · rw [if_neg hlt]
    unfold Vec.SizeLeCap
    dsimp only
    simp only [writeN_length, List.length_set, List.length_replicate]
    split_ifs with hz <;> omega

/-! ### Fallibility bridge lemmas -/

theorem emplaceBackF_none {α : Type} (v : Vec α) : v.emplaceBackF none = .error v := by
  unfold Vec.emplaceBackF
  split_ifs <;> rfl

theorem emplaceBackF_some {α : Type} (v : Vec α) (x : α) :
    v.emplaceBackF (some x) = .ok (v.emplaceBack x) := by
  unfold Vec.emplaceBackF Vec.emplaceBack
  split_ifs <;> rfl

/-! ### Claim theorems -/

/-- C1: on the growth path of `Emplace`, a prefix-transfer failure does
leave the container intact (second equation), but a suffix-transfer failure
does NOT satisfy the claim: the original buffer does not remain intact.
Concretely, for the full vector `[10, 20]` and `Emplace` of `99` at
position 1 with the copy of `20` throwing, the code leaves the container
with `size = 2` and both slots destroyed (`[none, none]`, first equation):
the prefix original was already destroyed by the successful prefix
transfer, and the `catch` handler runs `destroy_n` on the OLD buffer
(destroying slots `[0, p]` of it) instead of the new one, whose
constructed elements are leaked.  The third conjunct records that this
error state differs from the intact container the claim requires. -/
theorem C1_emplace_growth_failure :
    Vec.emplaceGrowF (fun t => t == 20) (⟨[some 10, some 20], 2⟩ : Vec Nat) 1 99 =
      .error ⟨[none, none], 2⟩ ∧
    Vec.emplaceGrowF (fun t => t == 10) (⟨[some 10, some 20], 2⟩ : Vec Nat) 1 99 =
      .error ⟨[some 10, some 20], 2⟩ ∧
    (⟨[none, none], 2⟩ : Vec Nat).elems ≠ (⟨[some 10, some 20], 2⟩ : Vec Nat).elems :=
  ⟨rfl, rfl, by decide⟩

/-- C2: `RawMemory` move construction does leave the source in the
null/zero state, but move assignment does not: with a destination owning a
buffer (pointer `some 1`, capacity 1) and a source owning `some 2`
(capacity 2), after move assignment the source holds the destination's old
— already freed — pointer `some 1` with capacity 0, and its destructor
performs a (double) deallocation. -/
theorem C2_rawMemory_move :
    RawMemory.moveCtor ⟨some 2, 2⟩ = (⟨some 2, 2⟩, ⟨none, 0⟩) ∧
    (RawMemory.moveAssign ⟨some 1, 1⟩ ⟨some 2, 2⟩).2 = ⟨some 1, 0⟩ ∧
    (RawMemory.moveAssign ⟨some 1, 1⟩ ⟨some 2, 2⟩).2.buffer ≠ none ∧
    RawMemory.dtorDeallocates (RawMemory.moveAssign ⟨some 1, 1⟩ ⟨some 2, 2⟩).2 = true :=
  ⟨rfl, rfl, by decide, rfl⟩

/-- C3, counterexample: vector move assignment is swap-based, so with a
non-empty destination `[5]` the source ends up with the destination's old
state (size 1), not the empty state the claim requires. -/
theorem C3_move_assign_counterexample :
    (Vec.moveAssign (⟨[some 5], 1⟩ : Vec Nat) ⟨[some 1, some 2], 2⟩).2.size ≠ 0 := by
  decide

/-- C3, amended: move construction empties the source (size 0, capacity 0)
and the destination holds exactly the source's prior state; move
assignment gives the destination the source's prior state while the source
receives the destination's prior state (swap) — so the source is empty
only when the destination was. -/
theorem C3_move_spec {α : Type} (a b : Vec α) :
    (Vec.moveCtor a).1 = a ∧
    (Vec.moveCtor a).2.size = 0 ∧
    (Vec.moveCtor a).2.capacity = 0 ∧
    (Vec.moveAssign a b).1 = b ∧
    (Vec.moveAssign a b).2 = a :=
  ⟨rfl, rfl, rfl, rfl, rfl⟩

/-- C4: `vector.h`'s `Erase` violates the claim: erasing position 0 of
`[10, 20]` destroys slot 0 first, move-assigns the tail into the destroyed
slot, and leaves the vacated last slot still holding a constructed
(moved-from) object (`some 20`, never destroyed).  `part_000`'s `Erase`
behaves as the claim states: it shifts first and then destroys the vacated
last slot (`none`). -/
theorem C4_eraseV1_last_slot :
    Vec.eraseV1 (⟨[some 10, some 20], 2⟩ : Vec Nat) 0 = (⟨[some 20, some 20], 1⟩, 0) ∧
    (Vec.eraseV1 (⟨[some 10, some 20], 2⟩ : Vec Nat) 0).1.data.getD 1 none ≠ none ∧
    Vec.eraseV2 (⟨[some 10, some 20], 2⟩ : Vec Nat) 0 = (⟨[some 20, none], 1⟩, 0) :=
  ⟨by decide, by decide, by decide⟩

/-- C5, counterexample: the two copy assignments disagree on
`a = [10]` (capacity 2) and `b = [1, 2]`: `vector.h` produces
`[some 1, none]` while `part_000` produces `[some 1, some 2]`. -/
theorem C5_copyAssign_differ :
    Vec.copyAssignV1 (⟨[some 10, none], 1⟩ : Vec Nat) ⟨[some 1, some 2], 2⟩ ≠
      Vec.copyAssignV2 (⟨[some 10, none], 1⟩ : Vec Nat) ⟨[some 1, some 2], 2⟩ := by
  decide

/-- C5, amended: the two implementations agree everywhere except the buggy
copy-assignment case `0 < a.size < b.size ≤ a.capacity`: the two `Erase`
variants produce the same size, live elements, capacity and return index
(differing only in the destruction of the vacated last slot, outside the
live region), and the two copy assignments are equal whenever the
destination is empty, the source is not larger, or the growth path is
taken.  All other operations are textually identical between the two
files and share one embedding. -/
theorem C5_impls_agree {α : Type} (a b v : Vec α) (p : Nat)
    (hv : v.SizeLeCap) (hp : p ≤ v.size)
    (hcase : b.size > a.data.length ∨ b.size ≤ a.size ∨ a.size = 0) :
    (v.eraseV1 p).1.size = (v.eraseV2 p).1.size ∧
    (v.eraseV1 p).1.elems = (v.eraseV2 p).1.elems ∧
    (v.eraseV1 p).1.data.length = (v.eraseV2 p).1.data.length ∧
    (v.eraseV1 p).2 = (v.eraseV2 p).2 ∧
    Vec.copyAssignV1 a b = Vec.copyAssignV2 a b := by
  by_cases hps : p = v.size
  · have h1 : v.eraseV1 p = (v.popBack, v.size - 1) := by
      unfold Vec.eraseV1; rw [if_pos hps]
    have h2 : v.eraseV2 p = (v.popBack, v.size - 1) := by
      unfold Vec.eraseV2; rw [if_pos hps]
    rw [h1, h2]
    exact ⟨rfl, rfl, rfl, rfl, copyAssign_agree a b hcase⟩
  · have hlt : p < v.size := by omega
    obtain ⟨a1, a2, a3, a4⟩ := eraseV1_spec v p hv hlt
    obtain ⟨b1, b2, b3, b4, b5⟩ := eraseV2_spec v p hv hlt
    exact ⟨by rw [a2, b2], by rw [a1, b1], by rw [a4, b4], by rw [a3, b3],
      copyAssign_agree a b hcase⟩

theorem C5_impls_agree_witness :
    (⟨[some 7, some 8], 2⟩ : Vec Nat).SizeLeCap ∧
    ((⟨[some 7, some 8], 2⟩ : Vec Nat).eraseV1 1).1.elems =
      ((⟨[some 7, some 8], 2⟩ : Vec Nat).eraseV2 1).1.elems ∧
    Vec.copyAssignV1 (⟨[some 3], 1⟩ : Vec Nat) ⟨[some 4], 1⟩ =
      Vec.copyAssignV2 (⟨[some 3], 1⟩ : Vec Nat) ⟨[some 4], 1⟩ :=
  ⟨by decide,
    (C5_impls_agree (⟨[some 3], 1⟩ : Vec Nat) ⟨[some 4], 1⟩
      (⟨[some 7, some 8], 2⟩ : Vec Nat) 1 (by decide) (by decide)
      (Or.inr (Or.inl (by decide)))).2.1,
    (C5_impls_agree (⟨[some 3], 1⟩ : Vec Nat) ⟨[some 4], 1⟩
      (⟨[some 7, some 8], 2⟩ : Vec Nat) 1 (by decide) (by decide)
      (Or.inr (Or.inl (by decide)))).2.2.2.2⟩

/-- C6: `vector.h`'s copy assignment violates the claim in its third case
(`a.size <= b.size <= a.capacity`): assigning `b = [1, 2]` into
`a = [10]` of capacity 2 copies `b`'s FIRST element over slot 0 again and
leaves slot 1 unconstructed, so the destination is `[some 1, none]` and
not element-wise equal to `b`.  `part_000`'s copy assignment produces the
claimed result. -/
theorem C6_copyAssignV1_bug :
    Vec.copyAssignV1 (⟨[some 10, none], 1⟩ : Vec Nat) ⟨[some 1, some 2], 2⟩ =
      ⟨[some 1, none], 2⟩ ∧
    (Vec.copyAssignV1 (⟨[some 10, none], 1⟩ : Vec Nat) ⟨[some 1, some 2], 2⟩).elems ≠
      (⟨[some 1, some 2], 2⟩ : Vec Nat).elems ∧
    (Vec.copyAssignV2 (⟨[some 10, none], 1⟩ : Vec Nat) ⟨[some 1, some 2], 2⟩).elems =
      (⟨[some 1, some 2], 2⟩ : Vec Nat).elems :=
  ⟨by decide, by decide, by decide⟩

/-- C7: `EmplaceBack`.  When `size == capacity` the new buffer has capacity
exactly `max 1 (2 * capacity)`; in both branches the resulting sequence is
the old one with the new element appended, the size grows by one, and the
returned reference designates the newly appended element; and a throwing
construction of the new element leaves the container untouched (the
element is constructed before any existing element is moved, copied or
destroyed). -/
theorem C7_emplaceBack_claim {α : Type} (v : Vec α) (x : α) (h : v.SizeLeCap) :
    (v.size = v.capacity → (v.emplaceBack x).1.capacity = max 1 (2 * v.capacity)) ∧
    (v.emplaceBack x).1.elems = v.elems ++ [some x] ∧
    (v.emplaceBack x).1.size = v.size + 1 ∧
    (v.emplaceBack x).2 = v.size ∧
    (v.emplaceBack x).1.data.getD (v.emplaceBack x).2 none = some x ∧
    v.emplaceBackF none = .error v := by
  obtain ⟨e1, e2, e3, e4, e5⟩ := emplaceBack_spec v x h
  refine ⟨?_, e1, e2, e3, ?_, emplaceBackF_none v⟩
  · intro hsc
    unfold Vec.capacity at hsc ⊢
    unfold Vec.emplaceBack
    rw [if_neg (by omega)]
    dsimp only
    simp only [writeN_length, List.length_set, List.length_replicate]
    split_ifs with hz <;> omega
  · rw [e3]
    exact e5

theorem C7_emplaceBack_claim_witness :
    (⟨[some 1], 1⟩ : Vec Nat).SizeLeCap ∧
    ((⟨[some 1], 1⟩ : Vec Nat).emplaceBack 2).1.elems =
      (⟨[some 1], 1⟩ : Vec Nat).elems ++ [some 2] ∧
    ((⟨[some 1], 1⟩ : Vec Nat).emplaceBack 2).1.capacity = max 1 (2 * 1) :=
  ⟨by decide, (C7_emplaceBack_claim (⟨[some 1], 1⟩ : Vec Nat) 2 (by decide)).2.1,
    (C7_emplaceBack_claim (⟨[some 1], 1⟩ : Vec Nat) 2 (by decide)).1 (by decide)⟩

/-- C8: every modelled public operation preserves `size <= capacity`, and
reallocation happens only when the required size exceeds the current
capacity: `EmplaceBack` and `Emplace` keep the buffer capacity unchanged
whenever `size < capacity`, `Reserve` is a no-op (state unchanged) when
the request does not exceed the capacity and produces a buffer of exactly
the requested capacity otherwise. -/
theorem C8_invariants {α : Type} [Inhabited α] (a b v : Vec α) (n p : Nat) (x : α)
    (ha : a.SizeLeCap) (hb : b.SizeLeCap) (hv : v.SizeLeCap) (hp : p ≤ v.size) :
    (Vec.nil α).SizeLeCap ∧
    (Vec.ofSize α n).SizeLeCap ∧
    (Vec.copy b).SizeLeCap ∧
    (Vec.moveCtor b).1.SizeLeCap ∧
    (Vec.moveCtor b).2.SizeLeCap ∧
    (Vec.moveAssign a b).1.SizeLeCap ∧
    (Vec.moveAssign a b).2.SizeLeCap ∧
    (swapPair a b).1.SizeLeCap ∧
    (swapPair a b).2.SizeLeCap ∧
    (Vec.copyAssignV1 a b).SizeLeCap ∧
    (Vec.copyAssignV2 a b).SizeLeCap ∧
    (v.emplaceBack x).1.SizeLeCap ∧
    (v.emplace p x).1.SizeLeCap ∧
    v.popBack.SizeLeCap ∧
    (v.eraseV1 p).1.SizeLeCap ∧
    (v.eraseV2 p).1.SizeLeCap ∧
    (v.reserve n).SizeLeCap ∧
    (v.resize n).SizeLeCap ∧
    (v.size < v.data.length → (v.emplaceBack x).1.data.length = v.data.length) ∧
    (v.size < v.data.length → (v.emplace p x).1.data.length = v.data.length) ∧
    (n ≤ v.data.length → v.reserve n = v) ∧
    (v.data.length < n → (v.reserve n).data.length = n) := by
  obtain ⟨c1, c2, _⟩ := copy_spec b hb
  obtain ⟨r1, _, r3, r4, _, r6⟩ := reserve_spec v n hv
  refine ⟨?_, ?_, ?_, hb, ?_, hb, ha, hb, ha, copyAssignV1_SizeLeCap a b hb,
    copyAssignV2_SizeLeCap a b hb, emplaceBack_SizeLeCap v x, emplace_SizeLeCap v p x,
    popBack_SizeLeCap v hv, eraseV1_SizeLeCap v p hv, eraseV2_SizeLeCap v p hv,
    ?_, (resize_spec v n hv).2.2.2.2, ?_, (emplace_spec v p x hv hp).2.2.2.2, r3, r4⟩
  · unfold Vec.nil Vec.SizeLeCap
    simp
  · unfold Vec.ofSize Vec.SizeLeCap
    simp
  · unfold Vec.SizeLeCap
    omega
  · show (Vec.nil α).SizeLeCap
    unfold Vec.nil Vec.SizeLeCap
    simp
  · unfold Vec.SizeLeCap
    rw [r1]
    exact r6
  · intro hlt
    unfold Vec.emplaceBack
    rw [if_pos hlt]
    simp

theorem C8_invariants_witness :
    (⟨[some 3], 1⟩ : Vec Nat).SizeLeCap ∧
    ((⟨[some 3], 1⟩ : Vec Nat).emplaceBack 4).1.SizeLeCap ∧
    ((⟨[some 3], 1⟩ : Vec Nat).reserve 1 = (⟨[some 3], 1⟩ : Vec Nat)) :=
  ⟨by decide,
    (C8_invariants (⟨[some 3], 1⟩ : Vec Nat) (⟨[some 3], 1⟩ : Vec Nat)
      (⟨[some 3], 1⟩ : Vec Nat) 1 1 4 (by decide) (by decide) (by decide)
      (by decide)).2.2.2.2.2.2.2.2.2.2.2.1,
    (C8_invariants (⟨[some 3], 1⟩ : Vec Nat) (⟨[some 3], 1⟩ : Vec Nat)
      (⟨[some 3], 1⟩ : Vec Nat) 1 1 4 (by decide) (by decide) (by decide)
      (by decide)).2.2.2.2.2.2.2.2.2.2.2.2.2.2.2.2.2.2.2.2.1 (by decide)⟩

/-- C9: inserting `x` at a valid position `p` (`Insert` forwards to
`Emplace`) and then erasing at `p` (`vector.h`'s `Erase`) restores both the
size and the element sequence of the original vector. -/
theorem C9_insert_then_erase {α : Type} (v : Vec α) (p : Nat) (x : α)
    (h : v.SizeLeCap) (hp : p ≤ v.size) :
    ((v.emplace p x).1.eraseV1 p).1.size = v.size ∧
    ((v.emplace p x).1.eraseV1 p).1.elems = v.elems := by
  have hS := h
  unfold Vec.SizeLeCap at hS
  obtain ⟨i1, i2, i3, i4, _⟩ := emplace_spec v p x h hp
  have hps : p < (v.emplace p x).1.size := by omega
  obtain ⟨d1, d2, d3, d4⟩ := eraseV1_spec (v.emplace p x).1 p i4 hps
  constructor
  · rw [d2, i2]
    omega
  · rw [d1, i1]
    have hlenA : (v.elems.take p).length = p := by
      unfold Vec.elems
      simp [List.length_take]
      omega
    rw [List.take_append_eq_append_take, hlenA]
    have h0 : p - p = 0 := by omega
    rw [h0]
    simp only [List.take_zero, List.append_nil]
    rw [List.drop_append_eq_append_drop, hlenA]
    have h2 : List.drop (p + 1) (v.elems.take p) = [] := by
      apply List.drop_eq_nil_of_le
      rw [hlenA]
      omega
    have h3 : p + 1 - p = 1 := by omega
    rw [h2, h3]
    simp only [List.nil_append, List.drop_succ_cons, List.drop_zero]
    rw [List.take_take]
    have h4 : min p p = p := by omega
    rw [h4, List.take_append_drop]

theorem C9_insert_then_erase_witness :
    (⟨[some 1, some 2], 2⟩ : Vec Nat).SizeLeCap ∧
    (((⟨[some 1, some 2], 2⟩ : Vec Nat).emplace 1 9).1.eraseV1 1).1.size = 2 ∧
    (((⟨[some 1, some 2], 2⟩ : Vec Nat).emplace 1 9).1.eraseV1 1).1.elems =
      (⟨[some 1, some 2], 2⟩ : Vec Nat).elems :=
  ⟨by decide,
    (C9_insert_then_erase (⟨[some 1, some 2], 2⟩ : Vec Nat) 1 9 (by decide) (by decide)).1,
    (C9_insert_then_erase (⟨[some 1, some 2], 2⟩ : Vec Nat) 1 9 (by decide) (by decide)).2⟩

/-- C10: `Resize(n)` always sets the size to exactly `n`; with `n > size`
it appends `n - size` value-initialized (default-valued) elements after
the existing ones, with `n < size` it truncates to the first `n`
elements, and with `n = size` it leaves the vector unchanged. -/
theorem C10_resize_claim {α : Type} [Inhabited α] (v : Vec α) (n : Nat)
    (h : v.SizeLeCap) :
    (v.resize n).size = n ∧
    (n > v.size → (v.resize n).elems = v.elems ++ List.replicate (n - v.size) (some default)) ∧
    (n < v.size → (v.resize n).elems = v.elems.take n) ∧
    (n = v.size → v.resize n = v) := by
  obtain ⟨r1, r2, r3, r4, _⟩ := resize_spec v n h
  exact ⟨r1, r2, r3, r4⟩

theorem C10_resize_claim_witness :
    (⟨[some 1], 1⟩ : Vec Nat).SizeLeCap ∧
    ((⟨[some 1], 1⟩ : Vec Nat).resize 3).size = 3 ∧
    ((⟨[some 1], 1⟩ : Vec Nat).resize 3).elems =
      (⟨[some 1], 1⟩ : Vec Nat).elems ++ List.replicate 2 (some 0) :=
  ⟨by decide, (C10_resize_claim (⟨[some 1], 1⟩ : Vec Nat) 3 (by decide)).1,
    (C10_resize_claim (⟨[some 1], 1⟩ : Vec Nat) 3 (by decide)).2.1 (by decide)⟩
